import Mathlib

/-
  Verification of the phishing-email analysis service (app.py).

  Strings are modelled as `List Char`.  Python's `str.lower`, `str.split`,
  `str.translate` and the three `re.sub` calls of `preprocess_text` are
  modelled character-exactly for ASCII text (Python additionally handles
  non-ASCII case mappings, Unicode whitespace and Unicode digits; the
  repository's fixed keyword lists and messages are ASCII).
-/

namespace PhishingApp

/-- Whitespace class of Python's `str.split` / regex `\s` (ASCII part):
space, tab, newline, carriage return, vertical tab, form feed. -/
def isSpaceC (c : Char) : Bool :=
  c == ' ' || c == '\t' || c == '\n' || c == '\r' || c == '\x0b' || c == '\x0c'

/-- ASCII case mapping of Python's `str.lower` (same mapping as `Char.toLower`):
code points 65..90 are shifted by 32, everything else is unchanged. -/
def lowerChar (c : Char) : Char :=
  if 65 ≤ c.toNat ∧ c.toNat ≤ 90 then Char.ofNat (c.toNat + 32) else c

/-- Model of `text.lower()`. -/
def lowerStr (l : List Char) : List Char := l.map lowerChar

/-- The 32 characters of Python's `string.punctuation`, by code point. -/
def pyPunct : List Char :=
  ['\x21', '\x22', '\x23', '\x24', '\x25', '\x26', '\x27', '\x28',
   '\x29', '\x2a', '\x2b', '\x2c', '\x2d', '\x2e', '\x2f', '\x3a',
   '\x3b', '\x3c', '\x3d', '\x3e', '\x3f', '\x40', '\x5b', '\x5c',
   '\x5d', '\x5e', '\x5f', '\x60', '\x7b', '\x7c', '\x7d', '\x7e']

/-- Membership in `string.punctuation`. -/
def isPunct (c : Char) : Bool := pyPunct.elem c

/-- Length of the leftmost-at-this-position match of `http\S+|www\S+|https\S+`
(the `https\S+` branch is subsumed by `http\S+`): a literal `http`/`www`
followed by a greedy, non-empty run of non-whitespace characters. -/
def urlMatchLen (l : List Char) : Option Nat :=
  match l with
  | 'h' :: 't' :: 't' :: 'p' :: rest =>
    let run := rest.takeWhile (fun c => !(isSpaceC c))
    if run.length = 0 then none else some (4 + run.length)
  | 'w' :: 'w' :: 'w' :: rest =>
    let run := rest.takeWhile (fun c => !(isSpaceC c))
    if run.length = 0 then none else some (3 + run.length)
  | _ => none

/-- Scanner shared by the three `re.sub(pattern, '', text)` calls: at each
position, `f` gives the length of the leftmost match starting there (if
any); matched spans are deleted, and scanning resumes after them
(non-overlapping, leftmost semantics).  Every `f` used below returns a
positive length, so each step consumes at least one character and
`fuel = l.length` always suffices. -/
def reSubDeleteF (f : List Char → Option Nat) : Nat → List Char → List Char
  | 0, l => l
  | _ + 1, [] => []
  | fuel + 1, c :: cs =>
    match f (c :: cs) with
    | some n => reSubDeleteF f fuel ((c :: cs).drop n)
    | none => c :: reSubDeleteF f fuel cs

/-- Model of `re.sub(pattern, '', text)` for a match-length model `f`. -/
def reSubDelete (f : List Char → Option Nat) (l : List Char) : List Char :=
  reSubDeleteF f l.length l

/-- Model of `re.sub(r'http\S+|www\S+|https\S+', '', text)`. -/
def urlSub (l : List Char) : List Char := reSubDelete urlMatchLen l

/-- Length of the match of `\S+@\S+` at this position, if any.  A match
exists exactly when the maximal non-whitespace run starting here has an `@`
that is neither its first nor its last character (at least one non-space
character on each side); backtracking of the greedy `\S+` parts makes the
whole run the match. -/
def emailMatchLen (l : List Char) : Option Nat :=
  let run := l.takeWhile (fun c => !(isSpaceC c))
  if ((run.drop 1).dropLast).elem '@' then some run.length else none

/-- Model of `re.sub(r'\S+@\S+', '', text)`. -/
def emailSub (l : List Char) : List Char := reSubDelete emailMatchLen l

/-- Distance (inclusive) to the first `>` at or after this position, failing
at a newline or the end: the lazy `.*?>` of `<.*?>`, where `.` does not
match a newline. -/
def gtScan : List Char → Option Nat
  | [] => none
  | c :: cs =>
    if c = '>' then some 1
    else if c = '\n' then none
    else Option.map (fun n => n + 1) (gtScan cs)

/-- Length of the match of `<.*?>` at this position, if any. -/
def htmlMatchLen : List Char → Option Nat
  | [] => none
  | c :: rest => if c = '<' then Option.map (fun n => n + 1) (gtScan rest) else none

/-- Model of `re.sub(r'<.*?>', '', text)`. -/
def htmlSub (l : List Char) : List Char := reSubDelete htmlMatchLen l

/-- Model of `text.translate(str.maketrans('', '', string.punctuation))`. -/
def removePunct (l : List Char) : List Char := l.filter (fun c => !(isPunct c))

/-- Model of `text.split()`: split on runs of whitespace, discarding empty
pieces.  `cur` holds the reversed current word. -/
def splitWsAcc : List Char → List Char → List (List Char)
  | cur, [] => if cur.isEmpty then [] else [cur.reverse]
  | cur, c :: cs =>
    if isSpaceC c then
      if cur.isEmpty then splitWsAcc [] cs else cur.reverse :: splitWsAcc [] cs
    else splitWsAcc (c :: cur) cs

/-- Model of `text.split()`. -/
def splitWs (l : List Char) : List (List Char) := splitWsAcc [] l

/-- Model of `' '.join(words)`. -/
def joinWords : List (List Char) → List Char
  | [] => []
  | [w] => w
  | w :: x :: ws => w ++ ' ' :: joinWords (x :: ws)

/-- Model of `' '.join(text.split())`. -/
def collapseWs (l : List Char) : List Char := joinWords (splitWs l)

/-- Model of `preprocess_text` (app.py lines 36-56): lowercase, remove URLs,
remove email addresses, remove HTML tags, remove punctuation, collapse
whitespace. -/
def preprocessText (text : List Char) : List Char :=
  let t1 := lowerStr text
  let t2 := urlSub t1
  let t3 := emailSub t2
  let t4 := htmlSub t3
  let t5 := removePunct t4
  collapseWs t5

/-- Does `l` start with `pat`? -/
def startsList : List Char → List Char → Bool
  | [], _ => true
  | _ :: _, [] => false
  | p :: ps, c :: cs => p == c && startsList ps cs

/-- Model of Python's substring test `pat in l`. -/
def containsSub (pat : List Char) : List Char → Bool
  | [] => startsList pat []
  | c :: cs => startsList pat (c :: cs) || containsSub pat cs

/-- The fixed indicator list `phishing_keywords` (app.py lines 83-90). -/
def phishingKeywords : List (List Char) :=
  ["verify account".toList, "suspended account".toList,
   "click here immediately".toList, "confirm your password".toList,
   "update payment".toList, "prize".toList, "winner".toList,
   "urgent action required".toList, "verify your identity".toList,
   "reset password".toList, "unusual activity".toList,
   "limited time".toList, "act now".toList, "free money".toList,
   "nigerian prince".toList, "inheritance".toList, "bank account".toList,
   "credit card".toList, "social security".toList, "tax refund".toList,
   "claim your".toList, "congratulations you won".toList]

/-- Spec-side statement of the score: the number of phrases of the fixed
list that occur as substrings of the text (each phrase counted at most
once). -/
def specIndicatorCount (t : List Char) : Nat :=
  (phishingKeywords.filter (fun k => containsSub k t)).length

/-- The three confidence labels; the code emits them as the Arabic strings
for high, medium and low respectively. -/
inductive Confidence
  | high
  | medium
  | low
deriving DecidableEq

/-- The warning-sign messages (Arabic strings in the code), one per trigger
condition, plus the placeholder used when nothing fired. -/
inductive WarningSign
  | verifyRequest
  | urgencyLanguage
  | suspiciousLink
  | prizePromise
  | sensitiveInfo
  | financialContent
  | noClearSigns
deriving DecidableEq

/-- The templated `reason` message: either it cites the score, or it is the
fixed no-clear-signs text. -/
inductive Reason
  | indicatorsDetected (score : Nat)
  | noClearIndicators
deriving DecidableEq

/-- The JSON payload of a successful analysis. -/
structure AnalysisResult where
  is_phishing : Bool
  confidence : Confidence
  reason : Reason
  warning_signs : List WarningSign
  phishing_score : Nat
deriving DecidableEq

/-- Response of the analyze endpoint: 200 with a result, or an error status
with a message. -/
inductive AnalyzeResponse
  | ok (result : AnalysisResult)
  | err (status : Nat) (message : String)
deriving DecidableEq

/-- Does the text contain a `$` immediately followed by a digit — the
`\$\d+` branch of the financial-content regex? -/
def hasDollarDigit : List Char → Bool
  | [] => false
  | '$' :: c :: cs => c.isDigit || hasDollarDigit (c :: cs)
  | _ :: cs => hasDollarDigit cs

/-- Trigger 1: `'verify' in text_lower or 'confirm' in text_lower`. -/
def warnCond1 (t : List Char) : Bool :=
  containsSub ("verify".toList) t || containsSub ("confirm".toList) t

/-- Trigger 2: `'urgent' in text_lower or 'immediately' in text_lower`. -/
def warnCond2 (t : List Char) : Bool :=
  containsSub ("urgent".toList) t || containsSub ("immediately".toList) t

/-- Trigger 3: `'click here' in text_lower or 'click link' in text_lower`. -/
def warnCond3 (t : List Char) : Bool :=
  containsSub ("click here".toList) t || containsSub ("click link".toList) t

/-- Trigger 4: `'prize' in text_lower or 'winner' in text_lower or 'won' in text_lower`. -/
def warnCond4 (t : List Char) : Bool :=
  containsSub ("prize".toList) t || containsSub ("winner".toList) t ||
    containsSub ("won".toList) t

/-- Trigger 5: `'password' in text_lower or 'account' in text_lower`. -/
def warnCond5 (t : List Char) : Bool :=
  containsSub ("password".toList) t || containsSub ("account".toList) t

/-- Trigger 6: `re.search(r'\$\d+|money|payment|bank', text_lower)`. -/
def warnCond6 (t : List Char) : Bool :=
  hasDollarDigit t || containsSub ("money".toList) t ||
    containsSub ("payment".toList) t || containsSub ("bank".toList) t

/-- The warning-sign list built by app.py lines 100-115: the six conditions
are checked in order, each appending its message; if none fired, the single
placeholder entry is returned. -/
def warningSigns (t : List Char) : List WarningSign :=
  let l1 := if warnCond1 t then [WarningSign.verifyRequest] else []
  let l2 := l1 ++ (if warnCond2 t then [WarningSign.urgencyLanguage] else [])
  let l3 := l2 ++ (if warnCond3 t then [WarningSign.suspiciousLink] else [])
  let l4 := l3 ++ (if warnCond4 t then [WarningSign.prizePromise] else [])
  let l5 := l4 ++ (if warnCond5 t then [WarningSign.sensitiveInfo] else [])
  let l6 := l5 ++ (if warnCond6 t then [WarningSign.financialContent] else [])
  if l6.isEmpty then [WarningSign.noClearSigns] else l6

/-- Model of the POST `/api/analyze` handler `analyze_email` (app.py lines
63-134) on a parsed request body: `subject`/`body` are the two JSON fields
(defaulted to empty), `modelLoaded` is whether the pickle artifact loaded
at startup.  Mirrors the source: the combined text is built, the
normalizer is run (its output unused), the model gate may return 500, and
otherwise the keyword score drives the verdict, confidence, warning signs
and reason. -/
def analyzeEmail (modelLoaded : Bool) (subject body : List Char) : AnalyzeResponse :=
  let full_email := subject ++ ' ' :: body
  let _processed_email := preprocessText full_email
  match modelLoaded with
  | false => AnalyzeResponse.err 500 "Model not loaded. Using fallback detection."
  | true =>
    let text_lower := lowerStr full_email
    let phishing_score := phishingKeywords.countP (fun k => containsSub k text_lower)
    let is_phishing : Bool := decide (2 ≤ phishing_score)
    let confidence :=
      if 3 ≤ phishing_score then Confidence.high
      else if 1 ≤ phishing_score then Confidence.medium
      else Confidence.low
    let warning_signs := warningSigns text_lower
    let reason :=
      if is_phishing then Reason.indicatorsDetected phishing_score
      else Reason.noClearIndicators
    AnalyzeResponse.ok
      { is_phishing := is_phishing
        confidence := confidence
        reason := reason
        warning_signs := warning_signs
        phishing_score := phishing_score }

/-- Response of GET `/api/health`: HTTP status plus the two body fields. -/
structure HealthResponse where
  httpStatus : Nat
  status : String
  model_loaded : Bool
deriving DecidableEq

/-- Model of the GET `/api/health` handler `health_check` (app.py lines
136-142). -/
def healthCheck (modelLoaded : Bool) : HealthResponse :=
  { httpStatus := 200, status := "running", model_loaded := modelLoaded }

/-
  Supporting lemmas.
-/

theorem mem_reSubDeleteF (f : List Char → Option Nat) :
    ∀ (fuel : Nat) (l : List Char) (c : Char), c ∈ reSubDeleteF f fuel l → c ∈ l := by
  intro fuel
  induction fuel with
  | zero => intro l c h; simpa [reSubDeleteF] using h
  | succ fuel ih =>
    intro l c h
    cases l with
    | nil => simp [reSubDeleteF] at h
    | cons d cs =>
      cases hm : f (d :: cs) with
      | some n =>
        simp only [reSubDeleteF, hm] at h
        exact List.mem_of_mem_drop (ih _ _ h)
      | none =>
        simp only [reSubDeleteF, hm, List.mem_cons] at h
        rcases h with h | h
        · exact h ▸ List.mem_cons_self _ _
        · exact List.mem_cons_of_mem _ (ih _ _ h)

theorem mem_reSubDelete (f : List Char → Option Nat) (l : List Char) (c : Char)
    (h : c ∈ reSubDelete f l) : c ∈ l :=
  mem_reSubDeleteF f l.length l c h

theorem reSubDeleteF_eq_self (f : List Char → Option Nat) :
    ∀ (fuel : Nat) (l : List Char), (∀ t, t <:+ l → f t = none) →
      reSubDeleteF f fuel l = l := by
  intro fuel
  induction fuel with
  | zero => intro l _; rfl
  | succ fuel ih =>
    intro l hl
    cases l with
    | nil => rfl
    | cons d cs =>
      have hm : f (d :: cs) = none := hl _ (List.suffix_refl _)
      simp only [reSubDeleteF, hm]
      rw [ih cs (fun t ht => hl t (ht.trans (List.suffix_cons d cs)))]

theorem reSubDelete_eq_self (f : List Char → Option Nat) (l : List Char)
    (h : ∀ t, t <:+ l → f t = none) : reSubDelete f l = l :=
  reSubDeleteF_eq_self f l.length l h

theorem emailMatchLen_mem {l : List Char} {n : Nat}
    (h : emailMatchLen l = some n) : '@' ∈ l := by
  simp only [emailMatchLen] at h
  split at h
  · next hc =>
    have h1 : '@' ∈ ((l.takeWhile (fun c => !(isSpaceC c))).drop 1).dropLast :=
      List.mem_of_elem_eq_true hc
    exact (List.takeWhile_sublist _).subset
      (List.drop_subset _ _ (List.dropLast_subset _ h1))
  · exact absurd h (by simp)

theorem emailSub_eq_self {l : List Char} (h : '@' ∉ l) : emailSub l = l := by
  refine reSubDelete_eq_self _ _ (fun t ht => ?_)
  cases hm : emailMatchLen t with
  | none => rfl
  | some n => exact absurd (ht.subset (emailMatchLen_mem hm)) h

theorem htmlMatchLen_mem {l : List Char} {n : Nat}
    (h : htmlMatchLen l = some n) : '<' ∈ l := by
  cases l with
  | nil => simp [htmlMatchLen] at h
  | cons c rest =>
    simp only [htmlMatchLen] at h
    split at h
    · next hc => exact hc ▸ List.mem_cons_self _ _
    · exact absurd h (by simp)

theorem htmlSub_eq_self {l : List Char} (h : '<' ∉ l) : htmlSub l = l := by
  refine reSubDelete_eq_self _ _ (fun t ht => ?_)
  cases hm : htmlMatchLen t with
  | none => rfl
  | some n => exact absurd (ht.subset (htmlMatchLen_mem hm)) h

theorem removePunct_eq_self {l : List Char} (h : ∀ c ∈ l, isPunct c = false) :
    removePunct l = l :=
  List.filter_eq_self.mpr (fun c hc => by simp [h c hc])

theorem lowerStr_eq_self {l : List Char} (h : ∀ c ∈ l, lowerChar c = c) :
    lowerStr l = l := by
  induction l with
  | nil => rfl
  | cons c cs ih =>
    simp only [lowerStr, List.map_cons]
    rw [h c (List.mem_cons_self _ _),
      show cs.map lowerChar = cs from ih (fun d hd => h d (List.mem_cons_of_mem _ hd))]

theorem splitWsAcc_mem :
    ∀ (l cur : List Char) (w : List Char), w ∈ splitWsAcc cur l →
      ∀ c ∈ w, c ∈ cur ∨ c ∈ l := by
  intro l
  induction l with
  | nil =>
    intro cur w hw c hc
    simp only [splitWsAcc] at hw
    split at hw
    · simp at hw
    · simp only [List.mem_singleton] at hw
      subst hw
      exact Or.inl (List.mem_reverse.mp hc)
  | cons d cs ih =>
    intro cur w hw c hc
    simp only [splitWsAcc] at hw
    split at hw
    · split at hw
      · rcases ih [] w hw c hc with h | h
        · simp at h
        · exact Or.inr (List.mem_cons_of_mem _ h)
      · rcases List.mem_cons.mp hw with h | h
        · subst h
          exact Or.inl (List.mem_reverse.mp hc)
        · rcases ih [] w h c hc with h' | h'
          · simp at h'
          · exact Or.inr (List.mem_cons_of_mem _ h')
    · rcases ih (d :: cur) w hw c hc with h | h
      · rcases List.mem_cons.mp h with h' | h'
        · exact Or.inr (h' ▸ List.mem_cons_self _ _)
        · exact Or.inl h'
      · exact Or.inr (List.mem_cons_of_mem _ h)

theorem splitWsAcc_good :
    ∀ (l cur : List Char), (∀ c ∈ cur, isSpaceC c = false) →
      ∀ w ∈ splitWsAcc cur l, w ≠ [] ∧ ∀ c ∈ w, isSpaceC c = false := by
  intro l
  induction l with
  | nil =>
    intro cur hcur w hw
    simp only [splitWsAcc] at hw
    split at hw
    · simp at hw
    · next hne =>
      simp only [List.mem_singleton] at hw
      subst hw
      refine ⟨?_, fun c hc => hcur c (List.mem_reverse.mp hc)⟩
      simp only [ne_eq, List.reverse_eq_nil_iff]
      exact fun hnil => hne (by simp [hnil])
  | cons d cs ih =>
    intro cur hcur w hw
    simp only [splitWsAcc] at hw
    split at hw
    · split at hw
      · exact ih [] (by simp) w hw
      · next hne =>
        rcases List.mem_cons.mp hw with h | h
        · subst h
          refine ⟨?_, fun c hc => hcur c (List.mem_reverse.mp hc)⟩
          simp only [ne_eq, List.reverse_eq_nil_iff]
          exact fun hnil => hne (by simp [hnil])
        · exact ih [] (by simp) w h
    · next hds =>
      have hd : isSpaceC d = false := by
        cases hval : isSpaceC d
        · rfl
        · exact absurd hval hds
      refine ih (d :: cur) ?_ w hw
      intro c hc
      rcases List.mem_cons.mp hc with h | h
      · exact h ▸ hd
      · exact hcur c h

theorem splitWsAcc_append_word :
    ∀ (w : List Char), (∀ c ∈ w, isSpaceC c = false) →
      ∀ (cur l : List Char), splitWsAcc cur (w ++ l) = splitWsAcc (w.reverse ++ cur) l := by
  intro w
  induction w with
  | nil => intro _ cur l; simp
  | cons d ws ih =>
    intro hw cur l
    have hd : isSpaceC d = false := hw d (List.mem_cons_self _ _)
    simp only [List.cons_append, splitWsAcc, hd, Bool.false_eq_true, if_false]
    show splitWsAcc (d :: cur) (ws ++ l) = splitWsAcc ((d :: ws).reverse ++ cur) l
    rw [ih (fun c hc => hw c (List.mem_cons_of_mem _ hc)) (d :: cur) l]
    congr 1
    simp [List.reverse_cons, List.append_assoc]

theorem splitWs_joinWords :
    ∀ ws : List (List Char),
      (∀ w ∈ ws, w ≠ [] ∧ ∀ c ∈ w, isSpaceC c = false) →
      splitWs (joinWords ws) = ws := by
  intro ws
  induction ws with
  | nil => intro _; rfl
  | cons w ws ih =>
    intro h
    obtain ⟨hw1, hw2⟩ := h w (List.mem_cons_self _ _)
    cases ws with
    | nil =>
      show splitWs (joinWords [w]) = [w]
      have hjw : joinWords [w] = w := rfl
      rw [hjw]
      unfold splitWs
      have hw' : w = w ++ [] := by simp
      rw [hw', splitWsAcc_append_word w hw2 [] []]
      simp [splitWsAcc, hw1]
    | cons x ws2 =>
      show splitWs (w ++ ' ' :: joinWords (x :: ws2)) = w :: x :: ws2
      unfold splitWs
      rw [splitWsAcc_append_word w hw2 [] (' ' :: joinWords (x :: ws2))]
      simp only [List.append_nil]
      have hsp : isSpaceC ' ' = true := rfl
      simp only [splitWsAcc, hsp, if_true, List.isEmpty_eq_true,
        List.reverse_eq_nil_iff, hw1, if_false, List.reverse_reverse]
      rw [show splitWsAcc [] (joinWords (x :: ws2)) = splitWs (joinWords (x :: ws2)) from rfl,
        ih (fun w' hw' => h w' (List.mem_cons_of_mem _ hw'))]

theorem collapseWs_idem (l : List Char) : collapseWs (collapseWs l) = collapseWs l := by
  show joinWords (splitWs (joinWords (splitWs l))) = collapseWs l
  rw [splitWs_joinWords (splitWs l) (splitWsAcc_good l [] (by simp))]
  rfl

theorem char_toNat_ofNat_of_lt {n : Nat} (h : n < 55296) : (Char.ofNat n).toNat = n := by
  have hv : n.isValidChar := Or.inl h
  rw [Char.ofNat, dif_pos hv]
  rfl

theorem lowerChar_idem (c : Char) : lowerChar (lowerChar c) = lowerChar c := by
  unfold lowerChar
  by_cases h : 65 ≤ c.toNat ∧ c.toNat ≤ 90
  · rw [if_pos h]
    have ht : (Char.ofNat (c.toNat + 32)).toNat = c.toNat + 32 :=
      char_toNat_ofNat_of_lt (by omega)
    rw [if_neg]
    rw [ht]
    omega
  · rw [if_neg h, if_neg h]

theorem mem_joinWords :
    ∀ (ws : List (List Char)) (c : Char), c ∈ joinWords ws →
      c = ' ' ∨ ∃ w ∈ ws, c ∈ w := by
  intro ws
  induction ws with
  | nil => intro c h; simp [joinWords] at h
  | cons w ws ih =>
    intro c h
    cases ws with
    | nil => exact Or.inr ⟨w, by simp, by simpa [joinWords] using h⟩
    | cons x ws2 =>
      rw [show joinWords (w :: x :: ws2) = w ++ ' ' :: joinWords (x :: ws2) from rfl] at h
      rcases List.mem_append.mp h with h | h
      · exact Or.inr ⟨w, List.mem_cons_self _ _, h⟩
      · rcases List.mem_cons.mp h with h | h
        · exact Or.inl h
        · rcases ih c h with h' | ⟨w', hw', hc'⟩
          · exact Or.inl h'
          · exact Or.inr ⟨w', List.mem_cons_of_mem _ hw', hc'⟩

theorem mem_collapseWs (l : List Char) (c : Char) (h : c ∈ collapseWs l) :
    c = ' ' ∨ c ∈ l := by
  rcases mem_joinWords _ _ h with h | ⟨w, hw, hc⟩
  · exact Or.inl h
  · rcases splitWsAcc_mem l [] w hw c hc with h' | h'
    · simp at h'
    · exact Or.inr h'

theorem preprocessText_chars (s : List Char) :
    ∀ c ∈ preprocessText s, lowerChar c = c ∧ isPunct c = false := by
  intro c hc
  have hc' : c = ' ' ∨ c ∈ removePunct (htmlSub (emailSub (urlSub (lowerStr s)))) :=
    mem_collapseWs _ _ hc
  rcases hc' with h | h
  · subst h
    exact ⟨by decide, by decide⟩
  · constructor
    · have hmem : c ∈ lowerStr s :=
        mem_reSubDelete _ _ _ (mem_reSubDelete _ _ _ (mem_reSubDelete _ _ _
          (List.mem_of_mem_filter h)))
      rcases List.mem_map.mp hmem with ⟨d, _, hd⟩
      rw [← hd, lowerChar_idem]
    · have := List.of_mem_filter h
      simpa using this

theorem preprocessText_fix (l : List Char)
    (h1 : ∀ c ∈ l, lowerChar c = c)
    (h2 : urlSub l = l)
    (h3 : '@' ∉ l)
    (h4 : '<' ∉ l)
    (h5 : ∀ c ∈ l, isPunct c = false)
    (h6 : collapseWs l = l) :
    preprocessText l = l := by
  show collapseWs (removePunct (htmlSub (emailSub (urlSub (lowerStr l))))) = l
  rw [lowerStr_eq_self h1, h2, emailSub_eq_self h3, htmlSub_eq_self h4,
    removePunct_eq_self h5, h6]

theorem ite_isEmpty_ne_nil (l : List WarningSign) :
    (if l.isEmpty then [WarningSign.noClearSigns] else l) ≠ [] := by
  split
  · simp
  · next h =>
    intro hnil
    rw [hnil] at h
    exact h rfl

theorem warningSigns_ne_nil (t : List Char) : warningSigns t ≠ [] :=
  ite_isEmpty_ne_nil _

/-
  The claims.
-/

/-- C1: in a successful analyze response, `phishing_score` equals the number
of phrases of the fixed 22-entry indicator list that occur as substrings of
the lowercase space-joined concatenation of the raw subject and body (each
phrase counted at most once); the right-hand side depends only on that raw
lowercase text, so the normalizer's output does not influence the count. -/
theorem c1_score_counts_indicators (subject body : List Char) (r : AnalysisResult)
    (h : analyzeEmail true subject body = AnalyzeResponse.ok r) :
    r.phishing_score = specIndicatorCount (lowerStr (subject ++ ' ' :: body)) ∧
    phishingKeywords.length = 22 := by
  injection h with h
  subst h
  constructor
  · show List.countP (fun k => containsSub k (lowerStr (subject ++ ' ' :: body)))
        phishingKeywords = specIndicatorCount (lowerStr (subject ++ ' ' :: body))
    unfold specIndicatorCount
    apply List.countP_eq_length_filter
  · rfl

theorem c1_witness :
    (AnalysisResult.mk false Confidence.low Reason.noClearIndicators
        [WarningSign.noClearSigns] 0).phishing_score =
      specIndicatorCount (lowerStr ([] ++ ' ' :: [])) ∧
    phishingKeywords.length = 22 :=
  c1_score_counts_indicators [] [] _ (by decide)

/-- C2: in a successful analyze response, `is_phishing` is true exactly when
`phishing_score` is at least 2. -/
theorem c2_verdict_iff_score_ge_two (subject body : List Char) (r : AnalysisResult)
    (h : analyzeEmail true subject body = AnalyzeResponse.ok r) :
    r.is_phishing = true ↔ 2 ≤ r.phishing_score := by
  injection h with h
  subst h
  dsimp only
  simp [decide_eq_true_eq]

theorem c2_witness :
    (AnalysisResult.mk true Confidence.medium (Reason.indicatorsDetected 2)
        [WarningSign.prizePromise] 2).is_phishing = true ↔
    2 ≤ (AnalysisResult.mk true Confidence.medium (Reason.indicatorsDetected 2)
        [WarningSign.prizePromise] 2).phishing_score :=
  c2_verdict_iff_score_ge_two ("prize winner".toList) [] _ (by decide)

/-- C3: in a successful analyze response, the confidence label is determined
solely by `phishing_score`: high exactly when the score is at least 3,
medium exactly when it is 1 or 2, and low exactly when it is 0. -/
theorem c3_confidence_levels (subject body : List Char) (r : AnalysisResult)
    (h : analyzeEmail true subject body = AnalyzeResponse.ok r) :
    (r.confidence = Confidence.high ↔ 3 ≤ r.phishing_score) ∧
    (r.confidence = Confidence.medium ↔
      (r.phishing_score = 1 ∨ r.phishing_score = 2)) ∧
    (r.confidence = Confidence.low ↔ r.phishing_score = 0) := by
  injection h with h
  subst h
  dsimp only
  generalize (List.countP (fun k => containsSub k (lowerStr (subject ++ ' ' :: body)))
    phishingKeywords) = n
  refine ⟨?_, ?_, ?_⟩ <;> split_ifs with h1 h2 <;> simp <;> omega

theorem c3_witness :
    ((AnalysisResult.mk true Confidence.high (Reason.indicatorsDetected 3)
        [WarningSign.verifyRequest, WarningSign.urgencyLanguage,
         WarningSign.prizePromise, WarningSign.sensitiveInfo] 3).confidence =
        Confidence.high ↔
      3 ≤ (AnalysisResult.mk true Confidence.high (Reason.indicatorsDetected 3)
        [WarningSign.verifyRequest, WarningSign.urgencyLanguage,
         WarningSign.prizePromise, WarningSign.sensitiveInfo] 3).phishing_score) ∧
    ((AnalysisResult.mk true Confidence.high (Reason.indicatorsDetected 3)
        [WarningSign.verifyRequest, WarningSign.urgencyLanguage,
         WarningSign.prizePromise, WarningSign.sensitiveInfo] 3).confidence =
        Confidence.medium ↔
      ((AnalysisResult.mk true Confidence.high (Reason.indicatorsDetected 3)
        [WarningSign.verifyRequest, WarningSign.urgencyLanguage,
         WarningSign.prizePromise, WarningSign.sensitiveInfo] 3).phishing_score = 1 ∨
       (AnalysisResult.mk true Confidence.high (Reason.indicatorsDetected 3)
        [WarningSign.verifyRequest, WarningSign.urgencyLanguage,
         WarningSign.prizePromise, WarningSign.sensitiveInfo] 3).phishing_score = 2)) ∧
    ((AnalysisResult.mk true Confidence.high (Reason.indicatorsDetected 3)
        [WarningSign.verifyRequest, WarningSign.urgencyLanguage,
         WarningSign.prizePromise, WarningSign.sensitiveInfo] 3).confidence =
        Confidence.low ↔
      (AnalysisResult.mk true Confidence.high (Reason.indicatorsDetected 3)
        [WarningSign.verifyRequest, WarningSign.urgencyLanguage,
         WarningSign.prizePromise, WarningSign.sensitiveInfo] 3).phishing_score = 0) :=
  c3_confidence_levels ("urgent action required".toList)
    ("verify account prize".toList) _ (by decide)

/-- C4 (original claim, refuted): on subject "Urgent: verify your account"
and body "Click here immediately to confirm your password", the claim that
the score is at least 4 with confidence high is false: the only indicator
phrases matched are "click here immediately" and "confirm your password",
so the score is 2. -/
theorem c4_counterexample :
    ¬ ∃ r : AnalysisResult,
        analyzeEmail true ("Urgent: verify your account".toList)
            ("Click here immediately to confirm your password".toList) =
          AnalyzeResponse.ok r ∧
        4 ≤ r.phishing_score ∧ r.is_phishing = true ∧
        r.confidence = Confidence.high := by
  rintro ⟨r, hr, h4, -, -⟩
  have heq : analyzeEmail true ("Urgent: verify your account".toList)
      ("Click here immediately to confirm your password".toList) =
      AnalyzeResponse.ok ⟨true, Confidence.medium, Reason.indicatorsDetected 2,
        [WarningSign.verifyRequest, WarningSign.urgencyLanguage,
         WarningSign.suspiciousLink, WarningSign.sensitiveInfo], 2⟩ := by decide
  rw [heq] at hr
  injection hr with hr
  subst hr
  exact absurd h4 (by decide)

/-- C4 (amended): on subject "Urgent: verify your account" and body "Click
here immediately to confirm your password", the analyze operation with the
classifier artifact loaded produces phishing_score = 2, is_phishing = true
and confidence medium. -/
theorem c4_amended :
    analyzeEmail true ("Urgent: verify your account".toList)
        ("Click here immediately to confirm your password".toList) =
      AnalyzeResponse.ok ⟨true, Confidence.medium, Reason.indicatorsDetected 2,
        [WarningSign.verifyRequest, WarningSign.urgencyLanguage,
         WarningSign.suspiciousLink, WarningSign.sensitiveInfo], 2⟩ := by
  decide

/-- C5 (original claim, refuted): the normalizer is not idempotent.  On
"h.ttpx" one pass removes the dot, producing "httpx", and the second pass
deletes that as a URL-like token, producing the empty string. -/
theorem c5_counterexample :
    preprocessText (preprocessText ("h.ttpx".toList)) ≠
      preprocessText ("h.ttpx".toList) := by
  decide

/-- C5 (amended): the normalizer is idempotent on every input whose
normalized form is left unchanged by the URL-removal pass (equivalently,
whose normalized form contains no `http`/`www` token); the punctuation and
whitespace passes can otherwise manufacture a new URL-like token that only
the second pass deletes, which is the sole source of non-idempotence. -/
theorem c5_amended (s : List Char)
    (h : urlSub (preprocessText s) = preprocessText s) :
    preprocessText (preprocessText s) = preprocessText s := by
  refine preprocessText_fix _ (fun c hc => (preprocessText_chars s c hc).1) h
    ?_ ?_ (fun c hc => (preprocessText_chars s c hc).2) ?_
  · intro hat
    exact absurd (preprocessText_chars s _ hat).2 (by decide)
  · intro hlt
    exact absurd (preprocessText_chars s _ hlt).2 (by decide)
  · exact collapseWs_idem _

theorem c5_witness :
    urlSub (preprocessText ("Dear user hello".toList)) =
      preprocessText ("Dear user hello".toList) ∧
    preprocessText (preprocessText ("Dear user hello".toList)) =
      preprocessText ("Dear user hello".toList) :=
  ⟨by decide, c5_amended _ (by decide)⟩

/-- C6: on a parsed request, if the classifier artifact failed to load the
analyze handler returns HTTP 500 with the fixed message and never reaches
the heuristic scoring, and if it loaded, the handler returns HTTP 200 with
an analysis result. -/
theorem c6_model_gate (subject body : List Char) :
    analyzeEmail false subject body =
      AnalyzeResponse.err 500 "Model not loaded. Using fallback detection." ∧
    ∃ r : AnalysisResult, analyzeEmail true subject body = AnalyzeResponse.ok r :=
  ⟨rfl, ⟨_, rfl⟩⟩

/-- C7: whenever no indicator phrase occurs in the lowercase combined text,
the analyze operation with the artifact loaded succeeds with score 0,
verdict false and confidence low. -/
theorem c7_zero_score_on_clean_input (subject body : List Char)
    (h : ∀ k ∈ phishingKeywords,
      containsSub k (lowerStr (subject ++ ' ' :: body)) = false) :
    ∃ r : AnalysisResult, analyzeEmail true subject body = AnalyzeResponse.ok r ∧
      r.phishing_score = 0 ∧ r.is_phishing = false ∧
      r.confidence = Confidence.low := by
  have hc : phishingKeywords.countP
      (fun k => containsSub k (lowerStr (subject ++ ' ' :: body))) = 0 :=
    List.countP_eq_zero.mpr (fun k hk => by simp [h k hk])
  refine ⟨_, rfl, ?_, ?_, ?_⟩ <;> dsimp only <;> simp [hc]

theorem c7_witness :
    ∃ r : AnalysisResult, analyzeEmail true [] [] = AnalyzeResponse.ok r ∧
      r.phishing_score = 0 ∧ r.is_phishing = false ∧
      r.confidence = Confidence.low :=
  c7_zero_score_on_clean_input [] [] (by decide)

/-- C8: in a successful analyze response the warning-sign list equals the
fixed ordered function of the lowercase combined text (hence deterministic
and order-stable), it is never empty, and when none of the six trigger
conditions holds it is exactly the single placeholder entry. -/
theorem c8_warning_signs (subject body : List Char) (r : AnalysisResult)
    (h : analyzeEmail true subject body = AnalyzeResponse.ok r) :
    r.warning_signs = warningSigns (lowerStr (subject ++ ' ' :: body)) ∧
    r.warning_signs ≠ [] ∧
    ((warnCond1 (lowerStr (subject ++ ' ' :: body)) = false ∧
      warnCond2 (lowerStr (subject ++ ' ' :: body)) = false ∧
      warnCond3 (lowerStr (subject ++ ' ' :: body)) = false ∧
      warnCond4 (lowerStr (subject ++ ' ' :: body)) = false ∧
      warnCond5 (lowerStr (subject ++ ' ' :: body)) = false ∧
      warnCond6 (lowerStr (subject ++ ' ' :: body)) = false) →
      r.warning_signs = [WarningSign.noClearSigns]) := by
  injection h with h
  subst h
  refine ⟨rfl, warningSigns_ne_nil _, ?_⟩
  rintro ⟨h1, h2, h3, h4, h5, h6⟩
  dsimp only
  unfold warningSigns
  simp [h1, h2, h3, h4, h5, h6]

theorem c8_witness :
    (AnalysisResult.mk false Confidence.low Reason.noClearIndicators
        [WarningSign.noClearSigns] 0).warning_signs =
      warningSigns (lowerStr ("Meeting notes".toList ++ ' ' ::
        "See attached agenda for tomorrow".toList)) ∧
    (AnalysisResult.mk false Confidence.low Reason.noClearIndicators
        [WarningSign.noClearSigns] 0).warning_signs ≠ [] ∧
    ((warnCond1 (lowerStr ("Meeting notes".toList ++ ' ' ::
        "See attached agenda for tomorrow".toList)) = false ∧
      warnCond2 (lowerStr ("Meeting notes".toList ++ ' ' ::
        "See attached agenda for tomorrow".toList)) = false ∧
      warnCond3 (lowerStr ("Meeting notes".toList ++ ' ' ::
        "See attached agenda for tomorrow".toList)) = false ∧
      warnCond4 (lowerStr ("Meeting notes".toList ++ ' ' ::
        "See attached agenda for tomorrow".toList)) = false ∧
      warnCond5 (lowerStr ("Meeting notes".toList ++ ' ' ::
        "See attached agenda for tomorrow".toList)) = false ∧
      warnCond6 (lowerStr ("Meeting notes".toList ++ ' ' ::
        "See attached agenda for tomorrow".toList)) = false) →
      (AnalysisResult.mk false Confidence.low Reason.noClearIndicators
        [WarningSign.noClearSigns] 0).warning_signs =
        [WarningSign.noClearSigns]) :=
  c8_warning_signs ("Meeting notes".toList)
    ("See attached agenda for tomorrow".toList) _ (by decide)

/-- C9: the health endpoint returns HTTP 200 with body status "running" and
model_loaded equal to the startup load outcome. -/
theorem c9_health (b : Bool) :
    healthCheck b = { httpStatus := 200, status := "running", model_loaded := b } :=
  rfl

/-- C10: in a successful analyze response, phishing_score is at most 22,
the size of the fixed indicator list. -/
theorem c10_score_bounded (subject body : List Char) (r : AnalysisResult)
    (h : analyzeEmail true subject body = AnalyzeResponse.ok r) :
    r.phishing_score ≤ 22 ∧ phishingKeywords.length = 22 := by
  injection h with h
  subst h
  exact ⟨List.countP_le_length _, rfl⟩

theorem c10_witness :
    (AnalysisResult.mk false Confidence.low Reason.noClearIndicators
        [WarningSign.noClearSigns] 0).phishing_score ≤ 22 ∧
    phishingKeywords.length = 22 :=
  c10_score_bounded [] [] _ (by decide)

end PhishingApp
